import Mathlib

/-!
Verification of the mjai-log HTML generator
(`view-logs/generate_mjai_html.py`).

Text is modelled as `List Char`. Characters that are delicate to write
as literals (backtick, apostrophe, backslash, quote, braces, whitespace)
are built with `Char.ofNat` from their ASCII codes. Paths are plain
strings; the filesystem of generated files is an association list from
path to contents. Reads of archives and templates go through an
environment `Env` whose two fields model, respectively, the result of
`gzip.open` in text mode followed by a read, after universal-newline
translation, and
the result of reading the template as text; an `Except.error` value
models the exception branch. Writes are modelled as always succeeding.
Diagnostics (`print` calls) are modelled as an inductive `Diag` carrying
the same data the printed message carries.
-/

namespace MjaiView

abbrev Str := List Char

def nlChar : Char := Char.ofNat 10
def tabChar : Char := Char.ofNat 9
def crChar : Char := Char.ofNat 13
def spChar : Char := Char.ofNat 32
def quoteChar : Char := Char.ofNat 34
def aposChar : Char := Char.ofNat 39
def bslashChar : Char := Char.ofNat 92
def btickChar : Char := Char.ofNat 96
def lbraceChar : Char := Char.ofNat 123
def rbraceChar : Char := Char.ofNat 125

/-- Python `s.endswith(suf)`. -/
def endsWith (s suf : Str) : Bool := suf.isSuffixOf s

/-- Python `s.find(m)`: index of the first occurrence of `m` in `s`,
`none` standing for the `-1` returned when `m` does not occur. -/
def strFind : Str → Str → Option Nat
  | s@([]), m => if m.isPrefixOf s then some 0 else none
  | s@(_ :: rest), m => if m.isPrefixOf s then some 0 else (strFind rest m).map (· + 1)

/-- Python `s.replace(old, new)` for nonempty `old`, written with a fuel
argument (`fuel ≥ s.length` makes it total recursion on the fuel): scan
left to right, replacing each non-overlapping occurrence of `old`. -/
def replaceFuel (old new : Str) : Nat → Str → Str
  | 0, s => s
  | Nat.succ fuel, s =>
    match s with
    | [] => []
    | c :: rest =>
      if old.isPrefixOf s then new ++ replaceFuel old new fuel (s.drop old.length)
      else c :: replaceFuel old new fuel rest

/-- Python `s.replace(old, new)`: every non-overlapping occurrence of
`old` in `s` is replaced by `new`, scanning left to right.  For empty
`old`, Python inserts `new` before every character and at the end. -/
def pyReplace (s old new : Str) : Str :=
  match old with
  | [] => new ++ s.foldr (fun c acc => c :: (new ++ acc)) []
  | _ :: _ => replaceFuel old new s.length s

/-- The literal start marker of the injection span in the template:
the text `allActions = ` followed by a backtick and a newline. -/
def startMarker : Str :=
  ['a', 'l', 'l', 'A', 'c', 't', 'i', 'o', 'n', 's', spChar, '=', spChar,
   btickChar, nlChar]

/-- The literal end marker of the injection span in the template: a
newline, four spaces, a backtick and the text
`.trim().split(QBSnQ).map(s => JSON.parse(s))` where `Q` is an
apostrophe and `BS` a backslash. -/
def endMarker : Str :=
  [nlChar, spChar, spChar, spChar, spChar, btickChar,
   '.', 't', 'r', 'i', 'm', '(', ')',
   '.', 's', 'p', 'l', 'i', 't', '(', aposChar, bslashChar, 'n', aposChar, ')',
   '.', 'm', 'a', 'p', '(', 's', spChar, '=', '>', spChar,
   'J', 'S', 'O', 'N', '.', 'p', 'a', 'r', 's', 'e', '(', 's', ')', ')']

def jsonGzSuffix : Str := ['.', 'j', 's', 'o', 'n', '.', 'g', 'z']
def htmlSuffix : Str := ['.', 'h', 't', 'm', 'l']
def gzSuffix : Str := ['.', 'g', 'z']
/-- The default selection pattern, `*.json.gz`. -/
def starJsonGz : Str := '*' :: jsonGzSuffix

/-- Lines 75 to 90 of `generate_html_file`: find the first occurrence of
each marker; if either is missing the splice fails, otherwise the output
is the template up to and including the start marker, then the payload,
then the template from the end marker on. -/
def spliceTemplate (template_content mjai_data : Str) : Option Str :=
  match strFind template_content startMarker, strFind template_content endMarker with
  | some start_pos, some end_pos =>
    some (template_content.take (start_pos + startMarker.length)
          ++ mjai_data ++ template_content.drop end_pos)
  | _, _ => none

/-- The whitespace accepted by the Python json module between tokens. -/
def jsonWsChar (c : Char) : Bool :=
  c == spChar || c == tabChar || c == nlChar || c == crChar

def skipWs (s : Str) : Str := s.dropWhile jsonWsChar

def isDigitCh (c : Char) : Bool := 48 ≤ c.toNat && c.toNat ≤ 57

def isHexCh (c : Char) : Bool :=
  (48 ≤ c.toNat && c.toNat ≤ 57) || (97 ≤ c.toNat && c.toNat ≤ 102) ||
    (65 ≤ c.toNat && c.toNat ≤ 70)

/-- Remainder of a JSON string after the opening quote: consume escaped
and plain characters until the closing quote; raw control characters
(code below 32) are rejected, as by the strict Python decoder. -/
def parseStringRest : Str → Option Str
  | [] => none
  | c :: rest =>
    if c == quoteChar then some rest
    else if c == bslashChar then
      match rest with
      | [] => none
      | e :: r2 =>
        if e == quoteChar || e == bslashChar || e == Char.ofNat 47 || e == 'b'
            || e == 'f' || e == 'n' || e == 'r' || e == 't' then
          parseStringRest r2
        else if e == 'u' then
          match r2 with
          | h1 :: h2 :: h3 :: h4 :: r3 =>
            if isHexCh h1 && isHexCh h2 && isHexCh h3 && isHexCh h4 then
              parseStringRest r3
            else none
          | _ => none
        else none
    else if c.toNat < 32 then none
    else parseStringRest rest

/-- Integer part of a JSON number: a single zero, or a nonzero digit
followed by digits. -/
def parseIntPart : Str → Option Str
  | [] => none
  | c :: rest =>
    if c == '0' then some rest
    else if isDigitCh c then some (rest.dropWhile isDigitCh)
    else none

/-- Optional fraction part of a JSON number: a dot with one or more digits. -/
def parseFracPart (s : Str) : Option Str :=
  match s with
  | c :: rest =>
    if c == '.' then
      match rest with
      | d :: _ => if isDigitCh d then some (rest.dropWhile isDigitCh) else none
      | [] => none
    else some s
  | [] => some s

/-- Optional exponent part of a JSON number. -/
def parseExpPart (s : Str) : Option Str :=
  match s with
  | c :: rest =>
    if c == 'e' || c == 'E' then
      let rest2 := match rest with
        | d :: r2 => if d == '+' || d == '-' then r2 else rest
        | [] => rest
      match rest2 with
      | d :: _ => if isDigitCh d then some (rest2.dropWhile isDigitCh) else none
      | [] => none
    else some s
  | [] => some s

/-- A JSON number, with optional leading minus sign. -/
def parseNumber (s : Str) : Option Str :=
  let s1 := match s with
    | c :: r => if c == '-' then r else s
    | [] => s
  match parseIntPart s1 with
  | none => none
  | some s2 =>
    match parseFracPart s2 with
    | none => none
    | some s3 => parseExpPart s3

def nullLit : Str := ['n', 'u', 'l', 'l']
def trueLit : Str := ['t', 'r', 'u', 'e']
def falseLit : Str := ['f', 'a', 'l', 's', 'e']
def nanLit : Str := ['N', 'a', 'N']
def infLit : Str := ['I', 'n', 'f', 'i', 'n', 'i', 't', 'y']
def negInfLit : Str := '-' :: infLit

/-- Parsing mode of the recursive-descent JSON reader: a value, the
members of an object after its opening brace, or the items of an array
after its opening bracket. -/
inductive PMode where
  | value : PMode
  | members : PMode
  | items : PMode

/-- Recursive-descent recogniser for the JSON accepted by Python
`json.loads` with default settings (including the `NaN`, `Infinity` and
`-Infinity` literals).  Returns the remaining input after one parsed
value, or `none` on a syntax error.  The fuel argument only bounds the
recursion depth; it is chosen large enough in `jsonOk` below. -/
def parseCore : Nat → PMode → Str → Option Str
  | 0, _, _ => none
  | Nat.succ fuel, PMode.value, s =>
    match s with
    | [] => none
    | c :: rest =>
      if c == quoteChar then parseStringRest rest
      else if c == lbraceChar then
        match skipWs rest with
        | d :: r2 =>
          if d == rbraceChar then some r2
          else parseCore fuel PMode.members (skipWs rest)
        | [] => none
      else if c == '[' then
        match skipWs rest with
        | d :: r2 =>
          if d == ']' then some r2
          else parseCore fuel PMode.items (skipWs rest)
        | [] => none
      else if nullLit.isPrefixOf s then some (s.drop 4)
      else if trueLit.isPrefixOf s then some (s.drop 4)
      else if falseLit.isPrefixOf s then some (s.drop 5)
      else if nanLit.isPrefixOf s then some (s.drop 3)
      else if infLit.isPrefixOf s then some (s.drop 8)
      else if negInfLit.isPrefixOf s then some (s.drop 9)
      else parseNumber s
  | Nat.succ fuel, PMode.members, s =>
    match s with
    | [] => none
    | c :: rest =>
      if c == quoteChar then
        match parseStringRest rest with
        | none => none
        | some s2 =>
          match skipWs s2 with
          | d :: r3 =>
            if d == ':' then
              match parseCore fuel PMode.value (skipWs r3) with
              | none => none
              | some s4 =>
                match skipWs s4 with
                | e :: r5 =>
                  if e == ',' then parseCore fuel PMode.members (skipWs r5)
                  else if e == rbraceChar then some r5
                  else none
                | [] => none
            else none
          | [] => none
      else none
  | Nat.succ fuel, PMode.items, s =>
    match parseCore fuel PMode.value s with
    | none => none
    | some s2 =>
      match skipWs s2 with
      | e :: r3 =>
        if e == ',' then parseCore fuel PMode.items (skipWs r3)
        else if e == ']' then some r3
        else none
      | [] => none

/-- Python `json.loads(s)` viewed as a recogniser: `true` exactly when
the whole of `s` is one JSON value surrounded by optional whitespace. -/
def jsonOk (s : Str) : Bool :=
  match parseCore (2 * s.length + 2) PMode.value (skipWs s) with
  | some r => (skipWs r).isEmpty
  | none => false

/-- The character class stripped by Python `str.strip()` (its ASCII
whitespace part, which is all the archive lines can contain of it). -/
def pyWsChar (c : Char) : Bool :=
  c == spChar || c == tabChar || c == nlChar || c == crChar ||
    c == Char.ofNat 11 || c == Char.ofNat 12

/-- Python `line.strip()`. -/
def pyStrip (s : Str) : Str :=
  ((s.dropWhile pyWsChar).reverse.dropWhile pyWsChar).reverse

/-- Split a character list at every occurrence of `sep`; the separators
are dropped and the (possibly empty) segments between them returned. -/
def splitChar (sep : Char) : Str → List Str
  | [] => [[]]
  | c :: rest =>
    if c == sep then [] :: splitChar sep rest
    else
      match splitChar sep rest with
      | h :: t => (c :: h) :: t
      | [] => [[c]]

/-- The lines yielded by iterating the decoded text stream.  Python
iteration yields newline-terminated chunks; since every chunk is
immediately stripped, splitting at the newlines instead yields the same
stripped lines (a trailing newline only contributes one extra blank
segment, discarded by the blank-line check). -/
def pyLines (text : Str) : List Str := splitChar nlChar text

/-- The environment of a run: `readGz` is the result of opening an
archive with `gzip.open` in UTF-8 text mode and reading it as
universal-newline-translated text, `readText` the result of reading the
template file; an `error` value carries the message of the raised
exception. -/
structure Env where
  readGz : Str → Except Str Str
  readText : Str → Except Str Str

/-- One diagnostic message, carrying the same data as the corresponding
`print` call in the source. -/
inductive Diag where
  | invalidJsonLine (archive : Str) (preview : Str) : Diag
  | extractError (archive : Str) (err : Str) : Diag
  | templateReadError (template : Str) (err : Str) : Diag
  | markersMissing (template : Str) : Diag
  | generated (path : Str) : Diag
  | patternWarning (pat : Str) : Diag
  | refusedForSafety : Diag
  | noFilesFound (pat : Str) (dir : Str) : Diag
  | foundFiles (n : Nat) : Diag
  | processing (i n : Nat) (name : Str) : Diag
  | removedForLimit (path : Str) : Diag
  deriving DecidableEq

/-- The filesystem of written files: an association list from path to
contents (most recent write first). -/
abbrev FS := List (Str × Str)

def fsSet (fs : FS) (p c : Str) : FS := (p, c) :: fs.filter (fun e => !(e.1 == p))

def fsRemove (fs : FS) (p : Str) : FS := fs.filter (fun e => !(e.1 == p))

def fsExists (fs : FS) (p : Str) : Bool := fs.any (fun e => e.1 == p)

/-- The body of the line loop of `extract_mjai_log` (lines 32 to 41):
strip the line, skip it when blank, keep it verbatim when it parses as
JSON, otherwise record a warning naming the archive and the first 100
characters of the line. -/
def extractStep (json_gz_path : Str) (acc : List Str × List Diag) (rawLine : Str) :
    List Str × List Diag :=
  let line := pyStrip rawLine
  if line.isEmpty then acc
  else if jsonOk line then (acc.1 ++ [line], acc.2)
  else (acc.1, acc.2 ++ [Diag.invalidJsonLine json_gz_path (line.take 100)])

/-- The function `extract_mjai_log` (lines 19 to 47): on a read failure
return `none` with a diagnostic naming the archive and the cause;
otherwise run the line loop and join the kept lines with a newline. -/
def extract_mjai_log (env : Env) (json_gz_path : Str) : Option Str × List Diag :=
  match env.readGz json_gz_path with
  | Except.error e => (none, [Diag.extractError json_gz_path e])
  | Except.ok text =>
    let r := (pyLines text).foldl (extractStep json_gz_path) ([], [])
    (some (List.intercalate [nlChar] r.1), r.2)

/-- Python `os.path.basename`: the part of the path after its last slash. -/
def basename (p : Str) : Str :=
  (p.reverse.takeWhile (fun c => !(c == '/'))).reverse

/-- Python `os.path.dirname`: the part before the last slash, with
trailing slashes stripped unless the result consists only of slashes. -/
def dirname (p : Str) : Str :=
  let head := p.take (p.length - (basename p).length)
  if head.all (fun c => c == '/') then head
  else (head.reverse.dropWhile (fun c => c == '/')).reverse

/-- Python `os.path.join` for two components. -/
def pathJoin (a b : Str) : Str :=
  match b with
  | c :: _ =>
    if c == '/' then b
    else if a.isEmpty then b
    else if endsWith a ['/'] then a ++ b
    else a ++ '/' :: b
  | [] => if a.isEmpty then b else if endsWith a ['/'] then a else a ++ ['/']

/-- The function `generate_html_file` (lines 50 to 111): extract the
archive, read the template, splice the payload between the markers,
rename the basename with `str.replace`, resolve the output directory,
and write the result.  Writes are modelled as always succeeding. -/
def generate_html_file (env : Env) (json_gz_path template_path : Str)
    (output_dir : Option Str) (fs : FS) : FS × Option Str × List Diag :=
  match extract_mjai_log env json_gz_path with
  | (none, ds) => (fs, none, ds)
  | (some mjai_data, ds) =>
    match env.readText template_path with
    | Except.error e => (fs, none, ds ++ [Diag.templateReadError template_path e])
    | Except.ok template_content =>
      match spliceTemplate template_content mjai_data with
      | none => (fs, none, ds ++ [Diag.markersMissing template_path])
      | some new_content =>
        let json_gz_name := basename json_gz_path
        let html_name := pyReplace json_gz_name jsonGzSuffix htmlSuffix
        let out_dir := output_dir.getD (dirname json_gz_path)
        let output_path := pathJoin out_dir html_name
        (fsSet fs output_path new_content, some output_path,
          ds ++ [Diag.generated output_path])

/-- The body of the archive loop of `process_directory` (lines 145 to
150): announce progress, generate one file, and append the output path
to the result set when generation returned a truthy (non-`None`,
nonempty) path. -/
def genStep (env : Env) (template_path : Str) (output_dir : Option Str) (n : Nat)
    (acc : FS × List Str × List Diag) (pr : Nat × Str) : FS × List Str × List Diag :=
  let ds0 := acc.2.2 ++ [Diag.processing (pr.1 + 1) n (basename pr.2)]
  match generate_html_file env pr.2 template_path output_dir acc.1 with
  | (fs2, r, ds2) =>
    let gen2 := match r with
      | some h => if h.isEmpty then acc.2.1 else acc.2.1 ++ [h]
      | none => acc.2.1
    (fs2, gen2, ds0 ++ ds2)

/-- The function `process_directory` (lines 114 to 152).  The list of
paths matching the selection pattern under the input directory (the
result of `input_path.glob(pattern)`) is supplied by the caller as
`globResult`; the guard on the pattern, the empty-match warning and the
archive loop follow the source. -/
def process_directory (env : Env) (input_dir template_path : Str)
    (output_dir : Option Str) (pat : Str) (globResult : List Str) (fs : FS) :
    FS × List Str × List Diag :=
  let warnDs : List Diag :=
    if endsWith pat jsonGzSuffix then [] else [Diag.patternWarning pat]
  if endsWith pat jsonGzSuffix = false ∧ endsWith pat gzSuffix = false then
    (fs, [], warnDs ++ [Diag.refusedForSafety])
  else if globResult.isEmpty then
    (fs, [], warnDs ++ [Diag.noFilesFound pat input_dir])
  else
    globResult.enum.foldl (genStep env template_path output_dir globResult.length)
      (fs, [], warnDs ++ [Diag.foundFiles globResult.length])

/-- Python slice `xs[l:]` for an `int` index `l` (negative counts from
the end, clamped). -/
def pyDrop (l : Int) (xs : List α) : List α :=
  if 0 ≤ l then xs.drop l.toNat else xs.drop (xs.length - (-l).toNat)

/-- Python slice `xs[:l]` for an `int` index `l` (negative counts from
the end, clamped). -/
def pyTake (l : Int) (xs : List α) : List α :=
  if 0 ≤ l then xs.take l.toNat else xs.take (xs.length - (-l).toNat)

/-- The limit-enforcement block of `main` (lines 193 to 203): when a
limit was supplied (and, by Python truthiness, is nonzero) and the
result set exceeds it, delete each path beyond the limit that ends in
`.html` and exists, then truncate the result set to the limit.
Deletion is modelled as always succeeding. -/
def removeStep (acc : FS × List Diag) (p : Str) : FS × List Diag :=
  if endsWith p htmlSuffix && fsExists acc.1 p then
    (fsRemove acc.1 p, acc.2 ++ [Diag.removedForLimit p])
  else acc

def applyLimit (limit : Option Int) (generated : List Str) (fs : FS) :
    FS × List Str × List Diag :=
  match limit with
  | none => (fs, generated, [])
  | some l =>
    if l ≠ 0 ∧ l < (generated.length : Int) then
      let r := (pyDrop l generated).foldl removeStep (fs, ([] : List Diag))
      (r.1, pyTake l generated, r.2)
    else (fs, generated, [])

/-- Modelled from the spec (sections 4.3 and 9): the checked
suffix-strip-and-replace output naming — strip the compressed-log suffix
as an exact final suffix and append the HTML suffix, failing on a
basename that does not end in the compressed-log suffix.  Used only to
compare the specified naming rule with the one the source implements. -/
def specSuffixRename (name : Str) : Option Str :=
  if endsWith name jsonGzSuffix then
    some (name.take (name.length - jsonGzSuffix.length) ++ htmlSuffix)
  else none

/-- A well-formed template fixture: the start marker immediately
followed by the end marker. -/
def tplGood : Str := startMarker ++ endMarker

/-- A template fixture in which the first occurrence of the end marker
precedes the first occurrence of the start marker. -/
def tplReversed : Str := endMarker ++ startMarker

/-- An environment whose archives all decode to the single valid JSON
line `1` and whose templates all read as `tplGood`. -/
def env1 : Env :=
  { readGz := fun _ => Except.ok ['1'], readText := fun _ => Except.ok tplGood }

/-- An environment whose archives all decode to the single invalid line
`x` and whose templates all read as `tplGood`. -/
def envBadLine : Env :=
  { readGz := fun _ => Except.ok ['x'], readText := fun _ => Except.ok tplGood }

/-- An archive text fixture with a valid line `1`, an invalid line `x`,
a blank line, and a valid line `2`. -/
def textMix : Str := ['1', nlChar, 'x', nlChar, nlChar, '2']

/-- An environment whose archives decode to `textMix` and whose
templates read as `tplGood`. -/
def envMix : Env :=
  { readGz := fun _ => Except.ok textMix, readText := fun _ => Except.ok tplGood }

/-- An environment whose archive reads all fail with message `boom`. -/
def envBadGz : Env :=
  { readGz := fun _ => Except.error ['b', 'o', 'o', 'm'],
    readText := fun _ => Except.ok tplGood }

/-- An environment whose archives decode to the line `1` and whose
templates read as the empty document (no markers). -/
def envEmptyTpl : Env :=
  { readGz := fun _ => Except.ok ['1'], readText := fun _ => Except.ok [] }

def tPath : Str := ['t']
def nameMulti : Str := ['a'] ++ jsonGzSuffix ++ jsonGzSuffix
def aHtmlHtml : Str := ['a'] ++ htmlSuffix ++ htmlSuffix
def aJsonGzHtml : Str := ['a'] ++ jsonGzSuffix ++ htmlSuffix
def fooGz : Str := ['f', 'o', 'o'] ++ gzSuffix
def logsFooGz : Str := ['l', 'o', 'g', 's', '/', 'f', 'o', 'o'] ++ gzSuffix
def aJsonGz : Str := ['a'] ++ jsonGzSuffix
def bJsonGz : Str := ['b'] ++ jsonGzSuffix
def aHtml : Str := ['a'] ++ htmlSuffix
def bHtml : Str := ['b'] ++ htmlSuffix
def starTxt : Str := ['*', '.', 't', 'x', 't']
def starGz : Str := '*' :: gzSuffix

/-- A filesystem fixture holding one generated report. -/
def fsOne : FS := [(aHtml, ['x'])]

/-- A filesystem fixture holding two generated reports. -/
def fsTwo : FS := [(aHtml, ['x']), (bHtml, ['y'])]

/-- A filesystem fixture holding one `.html` report and one report
whose name kept its `.gz` suffix (reachable under the tolerated `*.gz`
selection pattern). -/
def fsAFoo : FS := [(aHtml, ['x']), (fooGz, ['y'])]

theorem strFind_isSome_iff (s m : Str) :
    (strFind s m).isSome = true ↔ ∃ j, m.isPrefixOf (s.drop j) = true := by
  induction s with
  | nil =>
    constructor
    · intro hs
      by_cases h : m.isPrefixOf ([] : Str) = true
      · exact ⟨0, by simpa using h⟩
      · rw [strFind, if_neg h] at hs
        simp at hs
    · rintro ⟨j, hj⟩
      have h0 : m.isPrefixOf ([] : Str) = true := by simpa using hj
      rw [strFind, if_pos h0]
      rfl
  | cons c rest ih =>
    constructor
    · intro hs
      by_cases h : m.isPrefixOf (c :: rest) = true
      · exact ⟨0, by simpa using h⟩
      · rw [strFind, if_neg h] at hs
        cases h2 : strFind rest m with
        | none => rw [h2] at hs; simp at hs
        | some i =>
          rcases ih.mp (by simp [h2]) with ⟨j, hj⟩
          exact ⟨j + 1, by simpa using hj⟩
    · rintro ⟨j, hj⟩
      by_cases h : m.isPrefixOf (c :: rest) = true
      · rw [strFind, if_pos h]; rfl
      · cases j with
        | zero => exact absurd (by simpa using hj) h
        | succ j0 =>
          have hrest : (strFind rest m).isSome = true :=
            ih.mpr ⟨j0, by simpa using hj⟩
          rw [strFind, if_neg h]
          cases h2 : strFind rest m with
          | none => rw [h2] at hrest; simp at hrest
          | some i => simp [h2]

theorem strFind_spec (s m : Str) (i : Nat) (h : strFind s m = some i) :
    m.isPrefixOf (s.drop i) = true ∧
      ∀ k, k < i → m.isPrefixOf (s.drop k) = false := by
  induction s generalizing i with
  | nil =>
    by_cases hp : m.isPrefixOf ([] : Str) = true
    · rw [strFind, if_pos hp] at h
      cases h
      exact ⟨by simpa using hp, by omega⟩
    · rw [strFind, if_neg hp] at h
      cases h
  | cons c rest ih =>
    by_cases hp : m.isPrefixOf (c :: rest) = true
    · rw [strFind, if_pos hp] at h
      cases h
      exact ⟨by simpa using hp, by omega⟩
    · rw [strFind, if_neg hp] at h
      cases h2 : strFind rest m with
      | none => rw [h2] at h; simp at h
      | some i0 =>
        rw [h2] at h
        simp only [Option.map_some'] at h
        rcases ih i0 h2 with ⟨h1, hmin⟩
        cases h
        refine ⟨by simpa using h1, ?_⟩
        intro k hk
        cases k with
        | zero =>
          rw [Bool.not_eq_true] at hp
          simpa using hp
        | succ k0 =>
          have := hmin k0 (by omega)
          simpa using this

theorem strFind_none_iff (s m : Str) :
    strFind s m = none ↔ ∀ j, m.isPrefixOf (s.drop j) = false := by
  constructor
  · intro h j
    cases hb : m.isPrefixOf (s.drop j) with
    | false => rfl
    | true =>
      have hs : (strFind s m).isSome = true := (strFind_isSome_iff s m).mpr ⟨j, hb⟩
      rw [h] at hs
      simp at hs
  · intro hall
    cases hf : strFind s m with
    | none => rfl
    | some i =>
      have h1 := (strFind_spec s m i hf).1
      have h2 := hall i
      rw [h1] at h2
      simp at h2

/-- C3: for a template containing both markers, the spliced output is
the template up to and including the first occurrence of the start
marker, then the payload, then the template from the first occurrence of
the end marker on — so the output agrees with the template outside the
injection span, for every payload. -/
theorem c3_splice_first_occurrence (tpl payload : Str)
    (hs : ∃ j, startMarker.isPrefixOf (tpl.drop j) = true)
    (he : ∃ j, endMarker.isPrefixOf (tpl.drop j) = true) :
    ∃ i j,
      startMarker.isPrefixOf (tpl.drop i) = true ∧
      (∀ k, k < i → startMarker.isPrefixOf (tpl.drop k) = false) ∧
      endMarker.isPrefixOf (tpl.drop j) = true ∧
      (∀ k, k < j → endMarker.isPrefixOf (tpl.drop k) = false) ∧
      spliceTemplate tpl payload =
        some (tpl.take (i + startMarker.length) ++ payload ++ tpl.drop j) := by
  have hs2 : (strFind tpl startMarker).isSome = true := (strFind_isSome_iff _ _).mpr hs
  have he2 : (strFind tpl endMarker).isSome = true := (strFind_isSome_iff _ _).mpr he
  rcases Option.isSome_iff_exists.mp hs2 with ⟨i, hi⟩
  rcases Option.isSome_iff_exists.mp he2 with ⟨j, hj⟩
  rcases strFind_spec _ _ _ hi with ⟨h1, h2⟩
  rcases strFind_spec _ _ _ hj with ⟨h3, h4⟩
  exact ⟨i, j, h1, h2, h3, h4, by simp [spliceTemplate, hi, hj]⟩

theorem c3_witness :
    ∃ i j,
      startMarker.isPrefixOf (tplGood.drop i) = true ∧
      (∀ k, k < i → startMarker.isPrefixOf (tplGood.drop k) = false) ∧
      endMarker.isPrefixOf (tplGood.drop j) = true ∧
      (∀ k, k < j → endMarker.isPrefixOf (tplGood.drop k) = false) ∧
      spliceTemplate tplGood endMarker =
        some (tplGood.take (i + startMarker.length) ++ endMarker ++ tplGood.drop j) :=
  c3_splice_first_occurrence tplGood endMarker ⟨0, by decide⟩ ⟨15, by decide⟩

/-- C4 counterexample: in the template `tplReversed` the first
occurrence of the end marker (position 0) precedes the first occurrence
of the start marker (position 49), yet splicing succeeds — the claim
that such a template is unusable is false of the code, which never
compares the two positions. -/
theorem c4_counterexample :
    strFind tplReversed endMarker = some 0 ∧
    strFind tplReversed startMarker = some 49 ∧
    (spliceTemplate tplReversed ['1']).isSome = true := by decide

/-- C4 (amended): splicing fails, with the filesystem untouched, a
`None` result and a diagnostic naming the template path, exactly when
either marker is absent from the template; when both markers are
present it succeeds regardless of their relative order. -/
theorem c4_markers_amended (env : Env) (p t : Str) (od : Option Str) (fs : FS)
    (text tpl payload : Str)
    (hg : env.readGz p = Except.ok text) (ht : env.readText t = Except.ok tpl) :
    ((spliceTemplate tpl payload = none) ↔
      (strFind tpl startMarker = none ∨ strFind tpl endMarker = none)) ∧
    ((strFind tpl startMarker = none ∨ strFind tpl endMarker = none) →
      (generate_html_file env p t od fs).1 = fs ∧
      (generate_html_file env p t od fs).2.1 = none ∧
      Diag.markersMissing t ∈ (generate_html_file env p t od fs).2.2) := by
  have hiff : (spliceTemplate tpl payload = none) ↔
      (strFind tpl startMarker = none ∨ strFind tpl endMarker = none) := by
    constructor
    · intro h
      cases hs : strFind tpl startMarker with
      | none => exact Or.inl rfl
      | some i =>
        cases he : strFind tpl endMarker with
        | none => exact Or.inr rfl
        | some j => simp [spliceTemplate, hs, he] at h
    · intro h
      rcases h with h | h
      · simp [spliceTemplate, h]
      · cases hs : strFind tpl startMarker with
        | none => simp [spliceTemplate, hs]
        | some i => simp [spliceTemplate, hs, h]
  refine ⟨hiff, ?_⟩
  intro h
  have hsp : spliceTemplate tpl
      (List.intercalate [nlChar]
        (((pyLines text).foldl (extractStep p) ([], [])).1)) = none := by
    cases hs : strFind tpl startMarker with
    | none => simp [spliceTemplate, hs]
    | some i =>
      rcases h with h | h
      · rw [hs] at h; cases h
      · simp [spliceTemplate, hs, h]
  simp [generate_html_file, extract_mjai_log, hg, ht, hsp]

theorem c4_witness :
    ((spliceTemplate ([] : Str) ['1'] = none) ↔
      (strFind ([] : Str) startMarker = none ∨ strFind ([] : Str) endMarker = none)) ∧
    ((strFind ([] : Str) startMarker = none ∨ strFind ([] : Str) endMarker = none) →
      (generate_html_file envEmptyTpl aJsonGz tPath none []).1 = [] ∧
      (generate_html_file envEmptyTpl aJsonGz tPath none []).2.1 = none ∧
      Diag.markersMissing tPath ∈
        (generate_html_file envEmptyTpl aJsonGz tPath none []).2.2) :=
  c4_markers_amended envEmptyTpl aJsonGz tPath none [] ['1'] [] ['1'] rfl rfl

/-- C8: when the archive cannot be opened, decompressed or decoded, the
reader returns `none` with a diagnostic naming the archive and the
cause, and the generator propagates the failure with the filesystem
untouched — no output file, not even a partial one. -/
theorem c8_unreadable_archive (env : Env) (p t : Str) (od : Option Str) (fs : FS)
    (e : Str) (hg : env.readGz p = Except.error e) :
    extract_mjai_log env p = (none, [Diag.extractError p e]) ∧
    generate_html_file env p t od fs = (fs, none, [Diag.extractError p e]) := by
  constructor
  · simp [extract_mjai_log, hg]
  · simp [generate_html_file, extract_mjai_log, hg]

theorem c8_witness :
    extract_mjai_log envBadGz aJsonGz =
      (none, [Diag.extractError aJsonGz ['b', 'o', 'o', 'm']]) ∧
    generate_html_file envBadGz aJsonGz tPath none [] =
      ([], none, [Diag.extractError aJsonGz ['b', 'o', 'o', 'm']]) :=
  c8_unreadable_archive envBadGz aJsonGz tPath none [] ['b', 'o', 'o', 'm'] rfl

theorem fsSet_idem (fs : FS) (p c : Str) :
    fsSet (fsSet fs p c) p c = fsSet fs p c := by
  simp [fsSet, List.filter_filter]

/-- C9: the generator is a deterministic function of the archive and
template contents — running it a second time on the filesystem produced
by the first run returns the same path and leaves the filesystem
exactly as the first run left it (the rewritten file is byte-identical). -/
theorem c9_idempotent (env : Env) (p t : Str) (od : Option Str) (fs : FS) :
    (generate_html_file env p t od (generate_html_file env p t od fs).1).1 =
      (generate_html_file env p t od fs).1 ∧
    (generate_html_file env p t od (generate_html_file env p t od fs).1).2.1 =
      (generate_html_file env p t od fs).2.1 := by
  rcases hx : extract_mjai_log env p with ⟨r, ds⟩
  cases r with
  | none => simp [generate_html_file, hx]
  | some d =>
    cases ht : env.readText t with
    | error e => simp [generate_html_file, hx, ht]
    | ok tpl =>
      cases hsp : spliceTemplate tpl d with
      | none => simp [generate_html_file, hx, ht, hsp]
      | some nc => simp [generate_html_file, hx, ht, hsp, fsSet_idem]

theorem extract_foldl (a : Str) (ls : List Str) (acc1 : List Str) (acc2 : List Diag) :
    ls.foldl (extractStep a) (acc1, acc2) =
      (acc1 ++ (ls.map pyStrip).filter (fun l => !l.isEmpty && jsonOk l),
       acc2 ++ ((ls.map pyStrip).filter (fun l => !l.isEmpty && !jsonOk l)).map
         (fun l => Diag.invalidJsonLine a (l.take 100))) := by
  induction ls generalizing acc1 acc2 with
  | nil => simp
  | cons l rest ih =>
    by_cases hb : (pyStrip l).isEmpty = true
    · have hstep : extractStep a (acc1, acc2) l = (acc1, acc2) := by
        simp [extractStep, hb]
      simp only [List.foldl_cons, hstep, ih, List.map_cons, List.filter_cons]
      simp [hb]
    · by_cases hj : jsonOk (pyStrip l) = true
      · have hstep : extractStep a (acc1, acc2) l = (acc1 ++ [pyStrip l], acc2) := by
          simp [extractStep, hb, hj]
        simp only [List.foldl_cons, hstep, ih, List.map_cons, List.filter_cons]
        simp [hb, hj]
      · have hstep : extractStep a (acc1, acc2) l =
            (acc1, acc2 ++ [Diag.invalidJsonLine a ((pyStrip l).take 100)]) := by
          simp [extractStep, hb, hj]
        simp only [List.foldl_cons, hstep, ih, List.map_cons, List.filter_cons]
        simp [hb, hj]

theorem extract_ok (env : Env) (p text : Str) (hg : env.readGz p = Except.ok text) :
    extract_mjai_log env p =
      (some (List.intercalate [nlChar]
        (((pyLines text).map pyStrip).filter (fun l => !l.isEmpty && jsonOk l))),
       (((pyLines text).map pyStrip).filter (fun l => !l.isEmpty && !jsonOk l)).map
         (fun l => Diag.invalidJsonLine p (l.take 100))) := by
  simp [extract_mjai_log, hg, extract_foldl]

theorem splitChar_ne_nil (sep : Char) (s : Str) : splitChar sep s ≠ [] := by
  cases s with
  | nil => simp [splitChar]
  | cons c rest =>
    by_cases h : (c == sep) = true
    · simp [splitChar, h]
    · simp only [splitChar, h]
      cases splitChar sep rest with
      | nil => simp
      | cons hh tt => simp

theorem splitChar_sep_not_mem (sep : Char) (s : Str) :
    ∀ seg ∈ splitChar sep s, sep ∉ seg := by
  induction s with
  | nil =>
    intro seg hseg
    simp [splitChar] at hseg
    simp [hseg]
  | cons c rest ih =>
    intro seg hseg
    by_cases h : (c == sep) = true
    · simp only [splitChar, h, if_true] at hseg
      rcases List.mem_cons.mp hseg with h2 | h2
      · simp [h2]
      · exact ih seg h2
    · simp only [splitChar, h] at hseg
      have hcs : c ≠ sep := by
        intro he
        exact h (by simp [he])
      cases hsp : splitChar sep rest with
      | nil => exact absurd hsp (splitChar_ne_nil sep rest)
      | cons hh tt =>
        rw [hsp] at hseg
        simp only [if_neg (by simpa using h)] at hseg
        rcases List.mem_cons.mp hseg with h2 | h2
        · subst h2
          intro hm
          rcases List.mem_cons.mp hm with h3 | h3
          · exact hcs h3.symm
          · exact ih hh (by simp [hsp]) h3
        · exact ih seg (by rw [hsp]; exact List.mem_cons_of_mem _ h2)

theorem splitChar_single (sep : Char) (l : Str) (h : sep ∉ l) :
    splitChar sep l = [l] := by
  induction l with
  | nil => simp [splitChar]
  | cons c rest ih =>
    have hc : (c == sep) = false := by
      simp only [beq_eq_false_iff_ne]
      intro he
      exact h (by simp [he])
    have hrest : sep ∉ rest := fun hm => h (List.mem_cons_of_mem _ hm)
    simp only [splitChar, hc]
    rw [ih hrest]
    simp

theorem splitChar_append (sep : Char) (l r : Str) (h : sep ∉ l) :
    splitChar sep (l ++ sep :: r) = l :: splitChar sep r := by
  induction l with
  | nil => simp [splitChar]
  | cons c rest ih =>
    have hc : (c == sep) = false := by
      simp only [beq_eq_false_iff_ne]
      intro he
      exact h (by simp [he])
    have hrest : sep ∉ rest := fun hm => h (List.mem_cons_of_mem _ hm)
    simp only [List.cons_append, splitChar, hc]
    rw [List.append_eq, ih hrest]
    simp

theorem splitChar_intercalate (sep : Char) (xs : List Str) (hne : xs ≠ [])
    (hm : ∀ l ∈ xs, sep ∉ l) :
    splitChar sep (List.intercalate [sep] xs) = xs := by
  induction xs with
  | nil => exact absurd rfl hne
  | cons x rest ih =>
    cases rest with
    | nil =>
      have : List.intercalate [sep] [x] = x := by
        simp [List.intercalate]
      rw [this]
      exact splitChar_single sep x (hm x (by simp))
    | cons y t =>
      have hstep : List.intercalate [sep] (x :: y :: t) =
          x ++ sep :: List.intercalate [sep] (y :: t) := by
        simp [List.intercalate, List.intersperse]
      rw [hstep, splitChar_append sep x _ (hm x (by simp))]
      rw [ih (by simp) (fun l hl => hm l (List.mem_cons_of_mem _ hl))]

theorem pyStrip_subset (s : Str) : ∀ x ∈ pyStrip s, x ∈ s := by
  intro x hx
  unfold pyStrip at hx
  rw [List.mem_reverse] at hx
  have h1 : x ∈ (s.dropWhile pyWsChar).reverse :=
    (List.dropWhile_sublist _).subset hx
  rw [List.mem_reverse] at h1
  exact (List.dropWhile_sublist _).subset h1

/-- C7: on a readable archive the payload is the newline-join of
exactly the stripped non-blank lines that parse as JSON, kept verbatim
and in original order; every line of the payload parses; each non-blank
line that fails to parse is excluded and yields a diagnostic naming the
archive with a 100-character preview of the line. -/
theorem c7_validated_payload (env : Env) (p text : Str)
    (hg : env.readGz p = Except.ok text) :
    ∃ kept : List Str,
      kept = ((pyLines text).map pyStrip).filter (fun l => !l.isEmpty && jsonOk l) ∧
      (extract_mjai_log env p).1 = some (List.intercalate [nlChar] kept) ∧
      (∀ l ∈ kept, jsonOk l = true) ∧
      (kept ≠ [] → pyLines (List.intercalate [nlChar] kept) = kept) ∧
      (extract_mjai_log env p).2 =
        (((pyLines text).map pyStrip).filter (fun l => !l.isEmpty && !jsonOk l)).map
          (fun l => Diag.invalidJsonLine p (l.take 100)) := by
  refine ⟨_, rfl, ?_, ?_, ?_, ?_⟩
  · rw [extract_ok env p text hg]
  · intro l hl
    have h := List.of_mem_filter hl
    exact (Bool.and_eq_true _ _).mp h |>.2
  · intro hne
    apply splitChar_intercalate _ _ hne
    intro l hl
    have hl2 : l ∈ (pyLines text).map pyStrip := List.mem_of_mem_filter hl
    rcases List.mem_map.mp hl2 with ⟨l0, hl0, rfl⟩
    intro hn
    exact splitChar_sep_not_mem nlChar text l0 hl0 (pyStrip_subset l0 _ hn)
  · rw [extract_ok env p text hg]

theorem c7_witness :
    ∃ kept : List Str,
      kept = ((pyLines textMix).map pyStrip).filter (fun l => !l.isEmpty && jsonOk l) ∧
      (extract_mjai_log envMix aJsonGz).1 = some (List.intercalate [nlChar] kept) ∧
      (∀ l ∈ kept, jsonOk l = true) ∧
      (kept ≠ [] → pyLines (List.intercalate [nlChar] kept) = kept) ∧
      (extract_mjai_log envMix aJsonGz).2 =
        (((pyLines textMix).map pyStrip).filter (fun l => !l.isEmpty && !jsonOk l)).map
          (fun l => Diag.invalidJsonLine aJsonGz (l.take 100)) :=
  c7_validated_payload envMix aJsonGz textMix rfl

/-- C10: an archive that decodes but contains only blank or malformed
lines yields the empty string from the reader (a success value, not the
`none` failure), and the generator proceeds to write a report whose
injected span is empty. -/
theorem c10_blank_or_malformed (env : Env) (p t : Str) (od : Option Str) (fs : FS)
    (text tpl : Str) (i j : Nat)
    (hg : env.readGz p = Except.ok text)
    (hlines : ∀ l ∈ (pyLines text).map pyStrip, l.isEmpty = true ∨ jsonOk l = false)
    (ht : env.readText t = Except.ok tpl)
    (hsm : strFind tpl startMarker = some i)
    (hem : strFind tpl endMarker = some j) :
    (extract_mjai_log env p).1 = some [] ∧
    (generate_html_file env p t od fs).2.1 =
      some (pathJoin (od.getD (dirname p))
        (pyReplace (basename p) jsonGzSuffix htmlSuffix)) ∧
    (generate_html_file env p t od fs).1 =
      fsSet fs
        (pathJoin (od.getD (dirname p))
          (pyReplace (basename p) jsonGzSuffix htmlSuffix))
        (tpl.take (i + startMarker.length) ++ tpl.drop j) := by
  have hkept : ((pyLines text).map pyStrip).filter (fun l => !l.isEmpty && jsonOk l)
      = [] := by
    rw [List.filter_eq_nil_iff]
    intro l hl
    rcases hlines l hl with h | h
    · simp [h]
    · simp [h]
  have hsp : spliceTemplate tpl [] =
      some (tpl.take (i + startMarker.length) ++ tpl.drop j) := by
    simp [spliceTemplate, hsm, hem]
  have hext := extract_ok env p text hg
  rw [hkept] at hext
  have hnil : List.intercalate [nlChar] ([] : List Str) = [] := rfl
  rw [hnil] at hext
  refine ⟨by rw [hext], ?_, ?_⟩
  · simp [generate_html_file, hext, ht, hsp]
  · simp [generate_html_file, hext, ht, hsp]

theorem c10_witness :
    (extract_mjai_log envBadLine aJsonGz).1 = some [] ∧
    (generate_html_file envBadLine aJsonGz tPath none []).2.1 =
      some (pathJoin ((none : Option Str).getD (dirname aJsonGz))
        (pyReplace (basename aJsonGz) jsonGzSuffix htmlSuffix)) ∧
    (generate_html_file envBadLine aJsonGz tPath none []).1 =
      fsSet []
        (pathJoin ((none : Option Str).getD (dirname aJsonGz))
          (pyReplace (basename aJsonGz) jsonGzSuffix htmlSuffix))
        (tplGood.take (0 + startMarker.length) ++ tplGood.drop 15) :=
  c10_blank_or_malformed envBadLine aJsonGz tPath none [] ['x'] tplGood 0 15
    rfl (by decide) rfl (by decide) (by decide)

theorem replaceFuel_no_occ (old new : Str) (fuel : Nat) (s : Str)
    (h : strFind s old = none) : replaceFuel old new fuel s = s := by
  induction fuel generalizing s with
  | zero => rfl
  | succ fuel ih =>
    cases s with
    | nil => rfl
    | cons c rest =>
      have hp : old.isPrefixOf (c :: rest) = false := by
        have := (strFind_none_iff _ _).mp h 0
        simpa using this
      have hrest : strFind rest old = none := by
        rw [strFind_none_iff]
        intro k
        have := (strFind_none_iff _ _).mp h (k + 1)
        simpa using this
      simp only [replaceFuel, hp]
      simp only [Bool.false_eq_true, if_false]
      rw [ih rest hrest]

theorem pyReplace_no_occ (s old new : Str) (hne : old ≠ [])
    (h : strFind s old = none) : pyReplace s old new = s := by
  cases old with
  | nil => exact absurd rfl hne
  | cons c os =>
    simp only [pyReplace]
    exact replaceFuel_no_occ _ _ _ _ h

/-- C2 is a code bug, shown at a concrete input: in directory mode with
the tolerated pattern `*.gz`, the archive `logs/foo.gz` (whose basename
contains no `.json.gz` occurrence for `str.replace` to rewrite) is
assigned an output path equal to its own path, and the generator writes
the report over the archive itself — the archive is not read-only. -/
theorem c2_archive_overwritten :
    pyReplace (basename logsFooGz) jsonGzSuffix htmlSuffix = basename logsFooGz ∧
    (generate_html_file env1 logsFooGz tPath none []).2.1 = some logsFooGz ∧
    fsExists (generate_html_file env1 logsFooGz tPath none []).1 logsFooGz = true := by
  decide

/-- C1 counterexample: the generator rewrites every occurrence of
`.json.gz` in the basename (the archive `a.json.gz.json.gz` becomes
`a.html.html`, not the `a.json.gz.html` that the exact-suffix rule of
the claim produces), and an input name not ending in `.json.gz`
(`foo.gz`) is passed through with a successful result instead of a
surfaced error. -/
theorem c1_counterexample :
    (generate_html_file env1 nameMulti tPath none []).2.1 = some aHtmlHtml ∧
    specSuffixRename nameMulti = some aJsonGzHtml ∧
    aHtmlHtml ≠ aJsonGzHtml ∧
    endsWith fooGz jsonGzSuffix = false ∧
    (generate_html_file env1 fooGz tPath none []).2.1.isSome = true := by
  decide

/-- C1 (amended): the output filename is computed from the basename by
`str.replace`, replacing every occurrence of `.json.gz` with `.html`;
no suffix check is performed and no error is surfaced — in particular a
basename in which `.json.gz` does not occur is used unchanged and
generation still succeeds. -/
theorem c1_rename_amended (env : Env) (p t : Str) (od : Option Str) (fs : FS)
    (text tpl : Str)
    (hg : env.readGz p = Except.ok text) (ht : env.readText t = Except.ok tpl)
    (hsm : (strFind tpl startMarker).isSome = true)
    (hem : (strFind tpl endMarker).isSome = true) :
    (generate_html_file env p t od fs).2.1 =
      some (pathJoin (od.getD (dirname p))
        (pyReplace (basename p) jsonGzSuffix htmlSuffix)) ∧
    (strFind (basename p) jsonGzSuffix = none →
      (generate_html_file env p t od fs).2.1 =
        some (pathJoin (od.getD (dirname p)) (basename p))) := by
  rcases Option.isSome_iff_exists.mp hsm with ⟨i, hi⟩
  rcases Option.isSome_iff_exists.mp hem with ⟨j, hj⟩
  have hx := extract_ok env p text hg
  have hsp : ∀ X, spliceTemplate tpl X =
      some (tpl.take (i + startMarker.length) ++ X ++ tpl.drop j) := by
    intro X
    simp [spliceTemplate, hi, hj]
  constructor
  · simp [generate_html_file, hx, ht, hsp]
  · intro hno
    have hrepl : pyReplace (basename p) jsonGzSuffix htmlSuffix = basename p :=
      pyReplace_no_occ _ _ _ (by decide) hno
    simp [generate_html_file, hx, ht, hsp, hrepl]

theorem c1_witness :
    (generate_html_file env1 fooGz tPath none []).2.1 =
      some (pathJoin ((none : Option Str).getD (dirname fooGz))
        (pyReplace (basename fooGz) jsonGzSuffix htmlSuffix)) ∧
    (strFind (basename fooGz) jsonGzSuffix = none →
      (generate_html_file env1 fooGz tPath none []).2.1 =
        some (pathJoin ((none : Option Str).getD (dirname fooGz)) (basename fooGz))) :=
  c1_rename_amended env1 fooGz tPath none [] ['1'] tplGood rfl rfl
    (by decide) (by decide)

theorem endsWith_gz_of_jsonGz (pat : Str) (h : endsWith pat jsonGzSuffix = true) :
    endsWith pat gzSuffix = true := by
  rw [endsWith, List.isSuffixOf_iff_suffix] at h ⊢
  have hsub : gzSuffix <:+ jsonGzSuffix := ⟨['.', 'j', 's', 'o', 'n'], rfl⟩
  exact hsub.trans h

theorem genFold_indep (env : Env) (t : Str) (od : Option Str) (n : Nat)
    (l : List (Nat × Str)) (fs : FS) (gen : List Str) (ds dt : List Diag) :
    (l.foldl (genStep env t od n) (fs, gen, ds)).1 =
      (l.foldl (genStep env t od n) (fs, gen, dt)).1 ∧
    (l.foldl (genStep env t od n) (fs, gen, ds)).2.1 =
      (l.foldl (genStep env t od n) (fs, gen, dt)).2.1 := by
  induction l generalizing fs gen ds dt with
  | nil => exact ⟨rfl, rfl⟩
  | cons pr rest ih =>
    simp only [List.foldl_cons]
    rcases hG : generate_html_file env pr.2 t od fs with ⟨fs2, r, ds2⟩
    simp only [genStep, hG]
    exact ih fs2 _ _ _

theorem genFold_ds_mono (env : Env) (t : Str) (od : Option Str) (n : Nat)
    (l : List (Nat × Str)) (fs : FS) (gen : List Str) (ds : List Diag)
    (d : Diag) (hd : d ∈ ds) :
    d ∈ (l.foldl (genStep env t od n) (fs, gen, ds)).2.2 := by
  induction l generalizing fs gen ds with
  | nil => exact hd
  | cons pr rest ih =>
    simp only [List.foldl_cons]
    rcases hG : generate_html_file env pr.2 t od fs with ⟨fs2, r, ds2⟩
    simp only [genStep, hG]
    exact ih fs2 _ _ (List.mem_append_left _ (List.mem_append_left _ hd))

/-- C5: a selection pattern not ending in the generic compression
suffix `.gz` makes the coordinator refuse: it returns the empty result
set with the filesystem untouched (after warning and reporting the
refusal); a pattern ending in `.gz` but not in `.json.gz` produces a
warning and then proceeds exactly as the default pattern would on the
same matched files (same filesystem, same result set). -/
theorem c5_pattern_guard (env : Env) (input_dir t : Str) (od : Option Str)
    (pat : Str) (globResult : List Str) (fs : FS) :
    (endsWith pat gzSuffix = false →
      process_directory env input_dir t od pat globResult fs =
        (fs, [], [Diag.patternWarning pat, Diag.refusedForSafety])) ∧
    (endsWith pat gzSuffix = true → endsWith pat jsonGzSuffix = false →
      ((process_directory env input_dir t od pat globResult fs).1 =
          (process_directory env input_dir t od starJsonGz globResult fs).1 ∧
        (process_directory env input_dir t od pat globResult fs).2.1 =
          (process_directory env input_dir t od starJsonGz globResult fs).2.1 ∧
        Diag.patternWarning pat ∈
          (process_directory env input_dir t od pat globResult fs).2.2)) := by
  constructor
  · intro hgz
    have hjson : endsWith pat jsonGzSuffix = false := by
      cases hj : endsWith pat jsonGzSuffix with
      | false => rfl
      | true => rw [endsWith_gz_of_jsonGz pat hj] at hgz; cases hgz
    simp [process_directory, hjson, hgz]
  · intro hgz hjson
    have hstar : endsWith starJsonGz jsonGzSuffix = true := by decide
    by_cases hglob : globResult.isEmpty = true
    · refine ⟨?_, ?_, ?_⟩ <;> simp [process_directory, hjson, hgz, hstar, hglob]
    · have h1 := genFold_indep env t od globResult.length globResult.enum fs []
        [Diag.patternWarning pat, Diag.foundFiles globResult.length]
        [Diag.foundFiles globResult.length]
      refine ⟨?_, ?_, ?_⟩
      · simp only [process_directory, hjson, hgz, hstar, hglob]
        simpa using h1.1
      · simp only [process_directory, hjson, hgz, hstar, hglob]
        simpa using h1.2
      · simp only [process_directory, hjson, hgz, hstar, hglob]
        simp only [Bool.false_eq_true, false_and, and_false, if_false, if_true,
          Bool.true_eq_false]
        apply genFold_ds_mono
        simp

theorem c5_witness :
    (process_directory env1 ['d'] tPath none starTxt [aJsonGz] [] =
      ([], [], [Diag.patternWarning starTxt, Diag.refusedForSafety])) ∧
    ((process_directory env1 ['d'] tPath none starGz [aJsonGz] []).1 =
        (process_directory env1 ['d'] tPath none starJsonGz [aJsonGz] []).1 ∧
      (process_directory env1 ['d'] tPath none starGz [aJsonGz] []).2.1 =
        (process_directory env1 ['d'] tPath none starJsonGz [aJsonGz] []).2.1 ∧
      Diag.patternWarning starGz ∈
        (process_directory env1 ['d'] tPath none starGz [aJsonGz] []).2.2) :=
  ⟨(c5_pattern_guard env1 ['d'] tPath none starTxt [aJsonGz] []).1 (by decide),
   (c5_pattern_guard env1 ['d'] tPath none starGz [aJsonGz] []).2
     (by decide) (by decide)⟩

theorem fsExists_cons (k v p : Str) (rest : FS) :
    fsExists ((k, v) :: rest) p = ((k == p) || fsExists rest p) := by
  simp [fsExists]

theorem fsExists_fsRemove (fs : FS) (q p : Str) :
    fsExists (fsRemove fs q) p = (fsExists fs p && !(p == q)) := by
  induction fs with
  | nil => simp [fsExists, fsRemove]
  | cons e rest ih =>
    rcases e with ⟨k, v⟩
    by_cases hq : k = q
    · have hdrop : fsRemove ((k, v) :: rest) q = fsRemove rest q := by
        simp [fsRemove, List.filter_cons, hq]
      rw [hdrop, ih, fsExists_cons]
      by_cases hp : k = p
      · have hpq : (p == q) = true := by
          have : p = q := hp ▸ hq
          simp [this]
        simp [hpq]
      · have hkp : (k == p) = false := beq_false_of_ne hp
        simp [hkp]
    · have hkeep : fsRemove ((k, v) :: rest) q = (k, v) :: fsRemove rest q := by
        simp [fsRemove, List.filter_cons, beq_false_of_ne hq]
      rw [hkeep, fsExists_cons, fsExists_cons, ih]
      by_cases hp : k = p
      · have hpq : (p == q) = false := beq_false_of_ne (fun he => hq (hp.trans he))
        have hkp : (k == p) = true := by simp [hp]
        simp [hkp, hpq]
      · have hkp : (k == p) = false := beq_false_of_ne hp
        simp [hkp]

theorem removeLoop_fs (excess : List Str) (fs : FS) (ds : List Diag) (p : Str) :
    fsExists ((excess.foldl removeStep (fs, ds)).1) p =
      (fsExists fs p && !(decide (p ∈ excess) && endsWith p htmlSuffix)) := by
  induction excess generalizing fs ds with
  | nil => simp
  | cons q rest ih =>
    simp only [List.foldl_cons]
    cases hq : (endsWith q htmlSuffix && fsExists fs q) with
    | true =>
      have hstep : removeStep (fs, ds) q =
          (fsRemove fs q, ds ++ [Diag.removedForLimit q]) := by
        simp [removeStep, hq]
      rw [hstep, ih, fsExists_fsRemove]
      by_cases hpq : p = q
      · subst hpq
        have hends : endsWith p htmlSuffix = true :=
          ((Bool.and_eq_true _ _).mp hq).1
        simp [hends]
      · have hb : (p == q) = false := beq_false_of_ne hpq
        simp [hb, hpq, Bool.and_assoc]
    | false =>
      have hstep : removeStep (fs, ds) q = (fs, ds) := by
        simp [removeStep, hq]
      rw [hstep, ih]
      by_cases hpq : p = q
      · subst hpq
        cases hends : endsWith p htmlSuffix with
        | false => simp [hends]
        | true =>
          have hfs : fsExists fs p = false := by
            cases hfs : fsExists fs p with
            | false => rfl
            | true => rw [hends, hfs] at hq; cases hq
          simp [hfs]
      · simp [hpq]

theorem removeLoop_diags (excess : List Str) (fs : FS) (ds : List Diag) :
    ∀ d ∈ (excess.foldl removeStep (fs, ds)).2, d ∈ ds ∨
      ∃ p, d = Diag.removedForLimit p ∧ p ∈ excess ∧
        endsWith p htmlSuffix = true ∧ fsExists fs p = true := by
  induction excess generalizing fs ds with
  | nil => intro d hd; exact Or.inl hd
  | cons q rest ih =>
    intro d hd
    simp only [List.foldl_cons] at hd
    cases hq : (endsWith q htmlSuffix && fsExists fs q) with
    | true =>
      have hstep : removeStep (fs, ds) q =
          (fsRemove fs q, ds ++ [Diag.removedForLimit q]) := by
        simp [removeStep, hq]
      rw [hstep] at hd
      rcases ih (fsRemove fs q) _ d hd with hin | ⟨p, h1, h2, h3, h4⟩
      · rcases List.mem_append.mp hin with hin2 | hin2
        · exact Or.inl hin2
        · refine Or.inr ⟨q, by simpa using hin2, by simp,
            ((Bool.and_eq_true _ _).mp hq).1, ((Bool.and_eq_true _ _).mp hq).2⟩
      · refine Or.inr ⟨p, h1, by simp [h2], h3, ?_⟩
        rw [fsExists_fsRemove] at h4
        exact ((Bool.and_eq_true _ _).mp h4).1
    | false =>
      have hstep : removeStep (fs, ds) q = (fs, ds) := by
        simp [removeStep, hq]
      rw [hstep] at hd
      rcases ih fs ds d hd with hin | ⟨p, h1, h2, h3, h4⟩
      · exact Or.inl hin
      · exact Or.inr ⟨p, h1, by simp [h2], h3, h4⟩

/-- C6 counterexample, at three concrete runs the code reaches: with a
supplied limit of 0 and one generated report, the Python truthiness
test `if args.limit` skips the enforcement entirely, so the result set
keeps its entry and the file survives, where the claim demands an empty
result and one deletion; with reports `a.html, foo.gz` (the second
reachable under the tolerated `*.gz` pattern) and limit 1, the
beyond-limit report fails the `.html` check and zero files are deleted
where the claim demands exactly one; with reports
`a.html, b.html, b.html` (colliding output paths) and limit 1, the
duplicated beyond-limit path is deleted only once, one deletion where
the claim demands exactly two. -/
theorem c6_counterexample :
    ((applyLimit (some 0) [aHtml] fsOne).2.1 = [aHtml] ∧
      fsExists (applyLimit (some 0) [aHtml] fsOne).1 aHtml = true) ∧
    ((applyLimit (some 1) [aHtml, fooGz] fsAFoo).2.1 = [aHtml] ∧
      fsExists (applyLimit (some 1) [aHtml, fooGz] fsAFoo).1 fooGz = true ∧
      (applyLimit (some 1) [aHtml, fooGz] fsAFoo).2.2 = []) ∧
    ((applyLimit (some 1) [aHtml, bHtml, bHtml] fsTwo).2.2 =
      [Diag.removedForLimit bHtml]) := by decide

/-- C6 (amended): for every supplied limit L with 0 < L < N, the result
set is truncated to exactly its first L entries regardless of deletion
outcomes, and the enforcement step deletes exactly those beyond-limit
report paths that end in `.html` and exist — each such path is gone
afterwards, every other path (one within the limit, one not ending in
`.html`, or one not in the beyond-limit segment) is untouched, and
every removal diagnostic names a beyond-limit `.html` path that existed
before its deletion. -/
theorem c6_limit_amended (L : Int) (generated : List Str) (fs : FS)
    (hL : 0 < L) (hLN : L < (generated.length : Int)) :
    (applyLimit (some L) generated fs).2.1 = generated.take L.toNat ∧
    ((applyLimit (some L) generated fs).2.1.length : Int) = L ∧
    (∀ p, fsExists (applyLimit (some L) generated fs).1 p =
      (fsExists fs p &&
        !(decide (p ∈ generated.drop L.toNat) && endsWith p htmlSuffix))) ∧
    (∀ p ∈ generated.drop L.toNat, endsWith p htmlSuffix = true →
      fsExists (applyLimit (some L) generated fs).1 p = false) ∧
    (∀ p, endsWith p htmlSuffix = false →
      fsExists (applyLimit (some L) generated fs).1 p = fsExists fs p) ∧
    (∀ p, p ∉ generated.drop L.toNat →
      fsExists (applyLimit (some L) generated fs).1 p = fsExists fs p) ∧
    (∀ d ∈ (applyLimit (some L) generated fs).2.2,
      ∃ p, d = Diag.removedForLimit p ∧ p ∈ generated.drop L.toNat ∧
        endsWith p htmlSuffix = true ∧ fsExists fs p = true) := by
  have hcond : (L ≠ 0 ∧ L < (generated.length : Int)) := ⟨by omega, hLN⟩
  have hdrop : pyDrop L generated = generated.drop L.toNat := by
    simp [pyDrop, le_of_lt hL]
  have htake : pyTake L generated = generated.take L.toNat := by
    simp [pyTake, le_of_lt hL]
  have happ : applyLimit (some L) generated fs =
      (((generated.drop L.toNat).foldl removeStep (fs, [])).1,
        generated.take L.toNat,
        ((generated.drop L.toNat).foldl removeStep (fs, [])).2) := by
    simp only [applyLimit]
    rw [if_pos hcond, hdrop, htake]
  have hLle : L.toNat ≤ generated.length := by omega
  refine ⟨by rw [happ], ?_, ?_, ?_, ?_, ?_, ?_⟩
  · rw [happ]
    simp only [List.length_take]
    omega
  · intro p
    rw [happ]
    exact removeLoop_fs _ _ _ _
  · intro p hp hends
    rw [happ, removeLoop_fs]
    simp [hp, hends]
  · intro p hends
    rw [happ, removeLoop_fs]
    simp [hends]
  · intro p hp
    rw [happ, removeLoop_fs]
    simp [hp]
  · intro d hd
    rw [happ] at hd
    rcases removeLoop_diags (generated.drop L.toNat) fs [] d hd with hin | hout
    · cases hin
    · exact hout

theorem c6_witness :
    (applyLimit (some 1) [aHtml, bHtml] fsTwo).2.1 =
      [aHtml, bHtml].take (1 : Int).toNat ∧
    ((applyLimit (some 1) [aHtml, bHtml] fsTwo).2.1.length : Int) = 1 ∧
    (∀ p, fsExists (applyLimit (some 1) [aHtml, bHtml] fsTwo).1 p =
      (fsExists fsTwo p &&
        !(decide (p ∈ [aHtml, bHtml].drop (1 : Int).toNat) &&
          endsWith p htmlSuffix))) ∧
    (∀ p ∈ [aHtml, bHtml].drop (1 : Int).toNat, endsWith p htmlSuffix = true →
      fsExists (applyLimit (some 1) [aHtml, bHtml] fsTwo).1 p = false) ∧
    (∀ p, endsWith p htmlSuffix = false →
      fsExists (applyLimit (some 1) [aHtml, bHtml] fsTwo).1 p = fsExists fsTwo p) ∧
    (∀ p, p ∉ [aHtml, bHtml].drop (1 : Int).toNat →
      fsExists (applyLimit (some 1) [aHtml, bHtml] fsTwo).1 p = fsExists fsTwo p) ∧
    (∀ d ∈ (applyLimit (some 1) [aHtml, bHtml] fsTwo).2.2,
      ∃ p, d = Diag.removedForLimit p ∧ p ∈ [aHtml, bHtml].drop (1 : Int).toNat ∧
        endsWith p htmlSuffix = true ∧ fsExists fsTwo p = true) :=
  c6_limit_amended 1 [aHtml, bHtml] fsTwo (by decide) (by decide)

end MjaiView
